import Mathlib

/-!
Verification of the enseal secret-sharing toolkit.

This development shallowly embeds the core of the enseal repository in Lean:
the inner `Envelope` (src/crypto/envelope.rs), the outer `SignedEnvelope`
(src/crypto/signing.rs), the per-variable at-rest codec (src/crypto/at_rest.rs),
identity-name validation (src/keys/store.rs), the relay client channel-code
validation (src/transfer/relay.rs), the relay server rate limiter
(src/server/mailbox.rs), and the identity-mode transfer orchestration
(src/cli/share.rs, src/transfer/filedrop.rs, src/transfer/identity.rs).

The external cryptographic collaborators (the age X25519 construction, the
ed25519-dalek signatures, the sha2 and base64 crates) are modelled as
executable idealised primitives: age ciphertexts are a byte-level injective
encoding of the recipient set together with the plaintext, decryptable exactly
by identities whose public key is among the recipients; ed25519 signatures are
a deterministic 64-byte tag recomputable from the verifying key and message;
base64 and hex are implemented in full; SHA-256 is implemented in full (FIPS
180-4), applied to the codepoint sequence of a string as the model of its
UTF-8 bytes (injectivity and decodability, the only properties the repository
relies on, are preserved).

Rust functions that can return `Err` become functions into `RustResult`,
which also carries a `panicked` constructor modelling a Rust panic (used by
`expect`).  Machine integers are modelled as `Nat` with explicit reductions
where the Rust code can overflow; `u64::saturating_sub` becomes truncated
`Nat` subtraction, which saturates the same way.
-/

namespace Enseal

/-- Result of a Rust function: `Ok`, `Err`, or a panic (as from `expect`). -/
inductive RustResult (α : Type) where
  | ok (val : α) : RustResult α
  | err (msg : String) : RustResult α
  | panicked (msg : String) : RustResult α
  deriving Repr, DecidableEq

namespace RustResult

/-- Monadic bind: propagate errors and panics. -/
def bind {α β : Type} : RustResult α → (α → RustResult β) → RustResult β
  | ok a, f => f a
  | err m, _ => err m
  | panicked m, _ => panicked m

/-- Map over the success value. -/
def map {α β : Type} (f : α → β) : RustResult α → RustResult β
  | ok a => ok (f a)
  | err m => err m
  | panicked m => panicked m

/-- True exactly on `ok`. -/
def isOk {α : Type} : RustResult α → Bool
  | ok _ => true
  | _ => false

end RustResult

/-! ## Byte-level codec primitives

A self-delimiting injective encoding of natural numbers into bytes, used by
the idealised age construction: a number is its base-255 digit list followed
by a terminator byte 255.  Every emitted byte is below 256. -/

/-- Encode one natural number: base-255 digits then the terminator byte 255. -/
def encNat (n : Nat) : List Nat :=
  Nat.digits 255 n ++ [255]

/-- Read bytes up to the 255 terminator, returning the digits and the rest. -/
def readDigits : List Nat → Option (List Nat × List Nat)
  | [] => none
  | b :: rest =>
    if b = 255 then some ([], rest)
    else match readDigits rest with
      | some (ds, r) => some (b :: ds, r)
      | none => none

/-- Decode one natural number from the stream, returning it and the rest. -/
def decNat (l : List Nat) : Option (Nat × List Nat) :=
  match readDigits l with
  | some (ds, r) => some (Nat.ofDigits 255 ds, r)
  | none => none

/-- Encode a list of naturals: the length, then each element. -/
def encNatList (l : List Nat) : List Nat :=
  encNat l.length ++ l.flatMap encNat

/-- Decode `count` naturals from the stream. -/
def decNats : Nat → List Nat → Option (List Nat × List Nat)
  | 0, l => some ([], l)
  | count + 1, l =>
    match decNat l with
    | some (n, rest) =>
      match decNats count rest with
      | some (ns, r) => some (n :: ns, r)
      | none => none
    | none => none

/-- Decode a length-prefixed list of naturals from the stream. -/
def decNatList (l : List Nat) : Option (List Nat × List Nat) :=
  match decNat l with
  | some (count, rest) => decNats count rest
  | none => none

/-! ## Base64 (the base64 crate, STANDARD engine)

Standard base64 with padding over byte lists, as used for the sender signing
key, the signature, and the per-variable ciphertext values. -/

/-- The 64-character standard base64 alphabet. -/
def b64Table : List Char :=
  "ABCDEFGHIJKLMNOPQRSTUVWXYZabcdefghijklmnopqrstuvwxyz0123456789+/".data

/-- Character for a 6-bit group. -/
def sextetChar (n : Nat) : Char :=
  b64Table.getD n 'A'

/-- Inverse lookup in the base64 alphabet. -/
def charSextet (c : Char) : Option Nat :=
  List.findIdx? (fun x => x = c) b64Table

/-- Base64-encode a byte list, three bytes to four characters, with padding. -/
def b64EncodeChars : List Nat → List Char
  | b1 :: b2 :: b3 :: rest =>
    let n := b1 * 65536 + b2 * 256 + b3
    sextetChar (n / 262144) :: sextetChar (n / 4096 % 64) ::
      sextetChar (n / 64 % 64) :: sextetChar (n % 64) :: b64EncodeChars rest
  | [b1, b2] =>
    let n := b1 * 1024 + b2 * 4
    [sextetChar (n / 4096), sextetChar (n / 64 % 64), sextetChar (n % 64), '=']
  | [b1] =>
    let n := b1 * 16
    [sextetChar (n / 64), sextetChar (n % 64), '=', '=']
  | [] => []

/-- Base64-decode a character list, four characters at a time. -/
def b64DecodeChars : List Char → Option (List Nat)
  | [] => some []
  | c1 :: c2 :: c3 :: c4 :: rest =>
    match charSextet c1, charSextet c2 with
    | some s1, some s2 =>
      if c3 = '=' then
        if c4 = '=' ∧ rest = [] then some [(s1 * 64 + s2) / 16]
        else none
      else
        match charSextet c3 with
        | some s3 =>
          if c4 = '=' then
            if rest = [] then
              let m := s1 * 4096 + s2 * 64 + s3
              some [m / 1024, m / 4 % 256]
            else none
          else
            match charSextet c4 with
            | some s4 =>
              match b64DecodeChars rest with
              | some bs =>
                let m := s1 * 262144 + s2 * 4096 + s3 * 64 + s4
                some ([m / 65536, m / 256 % 256, m % 256] ++ bs)
              | none => none
            | none => none
        | none => none
    | _, _ => none
  | _ => none

/-- Base64 encoding into a string, as the base64 crate produces. -/
def b64Encode (l : List Nat) : String :=
  ⟨b64EncodeChars l⟩

/-- Base64 decoding from a string. -/
def b64Decode (s : String) : Option (List Nat) :=
  b64DecodeChars s.data

/-! ## Lowercase hex -/

/-- Lowercase hexadecimal digit characters. -/
def hexTable : List Char := "0123456789abcdef".data

/-- One hex digit. -/
def hexChar (n : Nat) : Char :=
  hexTable.getD n '0'

/-- Two lowercase hex characters for one byte. -/
def byteHexChars (b : Nat) : List Char :=
  [hexChar (b / 16 % 16), hexChar (b % 16)]

/-- Lowercase hex encoding of a byte list. -/
def hexOfBytes (l : List Nat) : String :=
  ⟨(l.map byteHexChars).flatten⟩

/-! ## SHA-256 (the sha2 crate)

A complete executable FIPS 180-4 SHA-256 over byte lists.  All word
arithmetic is `Nat` reduced modulo `2 ^ 32`. -/

/-- The eight working variables of the compression function. -/
structure Hash8 where
  a : Nat
  b : Nat
  c : Nat
  d : Nat
  e : Nat
  f : Nat
  g : Nat
  h : Nat
  deriving Repr, DecidableEq

/-- SHA-256 initial hash value: fractional parts of square roots of the
first eight primes. -/
def sha256H0 : Hash8 :=
  ⟨1779033703, 3144134277, 1013904242, 2773480762,
   1359893119, 2600822924, 528734635, 1541459225⟩

/-- SHA-256 round constants: fractional parts of cube roots of the first 64
primes. -/
def sha256K : List Nat := [
  1116352408, 1899447441, 3049323471, 3921009573,
  961987163, 1508970993, 2453635748, 2870763221,
  3624381080, 310598401, 607225278, 1426881987,
  1925078388, 2162078206, 2614888103, 3248222580,
  3835390401, 4022224774, 264347078, 604807628,
  770255983, 1249150122, 1555081692, 1996064986,
  2554220882, 2821834349, 2952996808, 3210313671,
  3336571891, 3584528711, 113926993, 338241895,
  666307205, 773529912, 1294757372, 1396182291,
  1695183700, 1986661051, 2177026350, 2456956037,
  2730485921, 2820302411, 3259730800, 3345764771,
  3516065817, 3600352804, 4094571909, 275423344,
  430227734, 506948616, 659060556, 883997877,
  958139571, 1322822218, 1537002063, 1747873779,
  1955562222, 2024104815, 2227730452, 2361852424,
  2428436474, 2756734187, 3204031479, 3329325298]

/-- Right rotation of a 32-bit word. -/
def rotr32 (n x : Nat) : Nat :=
  ((x >>> n) ||| (x <<< (32 - n))) % 4294967296

/-- Bitwise complement of a 32-bit word. -/
def not32 (x : Nat) : Nat :=
  x ^^^ 4294967295

/-- Message-schedule sigma-0. -/
def ssig0 (x : Nat) : Nat :=
  rotr32 7 x ^^^ rotr32 18 x ^^^ (x >>> 3)

/-- Message-schedule sigma-1. -/
def ssig1 (x : Nat) : Nat :=
  rotr32 17 x ^^^ rotr32 19 x ^^^ (x >>> 10)

/-- One round of the SHA-256 compression function with constant `k` and
schedule word `w`. -/
def sha256Round (st : Hash8) (k : Nat) (w : Nat) : Hash8 :=
  let bigS1 := rotr32 6 st.e ^^^ rotr32 11 st.e ^^^ rotr32 25 st.e
  let ch := (st.e &&& st.f) ^^^ (not32 st.e &&& st.g)
  let t1 := (st.h + bigS1 + ch + k + w) % 4294967296
  let bigS0 := rotr32 2 st.a ^^^ rotr32 13 st.a ^^^ rotr32 22 st.a
  let maj := (st.a &&& st.b) ^^^ (st.a &&& st.c) ^^^ (st.b &&& st.c)
  let t2 := (bigS0 + maj) % 4294967296
  ⟨(t1 + t2) % 4294967296, st.a, st.b, st.c,
   (st.d + t1) % 4294967296, st.e, st.f, st.g⟩

/-- Extend a 16-word block to the 64-word message schedule, one word per
unit of fuel. -/
def extendSchedule : Nat → List Nat → List Nat
  | 0, w => w
  | fuel + 1, w =>
    let n := w.length
    let next := (ssig1 (w.getD (n - 2) 0) + w.getD (n - 7) 0 +
      ssig0 (w.getD (n - 15) 0) + w.getD (n - 16) 0) % 4294967296
    extendSchedule fuel (w ++ [next])

/-- Process one 16-word block. -/
def sha256Block (st : Hash8) (block : List Nat) : Hash8 :=
  let w := extendSchedule 48 block
  let r := (sha256K.zip w).foldl (fun s p => sha256Round s p.1 p.2) st
  ⟨(st.a + r.a) % 4294967296, (st.b + r.b) % 4294967296,
   (st.c + r.c) % 4294967296, (st.d + r.d) % 4294967296,
   (st.e + r.e) % 4294967296, (st.f + r.f) % 4294967296,
   (st.g + r.g) % 4294967296, (st.h + r.h) % 4294967296⟩

/-- SHA-256 padding: a 0x80 byte, zeros to 56 mod 64, then the bit length
as eight big-endian bytes. -/
def sha256Pad (msg : List Nat) : List Nat :=
  let len := msg.length
  let zeros := (64 - (len + 9) % 64) % 64
  let bits := len * 8
  msg ++ [128] ++ List.replicate zeros 0 ++
    [bits / 72057594037927936 % 256, bits / 281474976710656 % 256,
     bits / 1099511627776 % 256, bits / 4294967296 % 256,
     bits / 16777216 % 256, bits / 65536 % 256, bits / 256 % 256, bits % 256]

/-- Big-endian 32-bit words from bytes, four at a time. -/
def bytesToWords : List Nat → List Nat
  | b1 :: b2 :: b3 :: b4 :: rest =>
    (b1 * 16777216 + b2 * 65536 + b3 * 256 + b4) :: bytesToWords rest
  | _ => []

/-- Split a word list into 16-word blocks, one block per unit of fuel. -/
def wordsToBlocks : Nat → List Nat → List (List Nat)
  | 0, _ => []
  | _, [] => []
  | fuel + 1, ws => ws.take 16 :: wordsToBlocks fuel (ws.drop 16)

/-- Big-endian bytes of one 32-bit word. -/
def wordBytes (w : Nat) : List Nat :=
  [w / 16777216 % 256, w / 65536 % 256, w / 256 % 256, w % 256]

/-- SHA-256 digest of a byte list as 32 bytes. -/
def sha256 (msg : List Nat) : List Nat :=
  let words := bytesToWords (sha256Pad msg)
  let st := (wordsToBlocks words.length words).foldl sha256Block sha256H0
  wordBytes st.a ++ wordBytes st.b ++ wordBytes st.c ++ wordBytes st.d ++
    wordBytes st.e ++ wordBytes st.f ++ wordBytes st.g ++ wordBytes st.h

/-! ## Strings as bytes

The model of `str::as_bytes` and `String::from_utf8`: the UTF-8 byte
sequence of a string is abstracted to its codepoint sequence, which keeps
the two properties the repository relies on, injectivity and decodability. -/

/-- Model of `str::as_bytes`. -/
def strBytes (s : String) : List Nat :=
  s.data.map Char.toNat

/-- Model of `String::from_utf8`: succeeds exactly on valid scalar values. -/
def bytesToStr (l : List Nat) : Option String :=
  if _h : ∀ n ∈ l, n.isValidChar then some ⟨l.map Char.ofNat⟩ else none

/-- Lowercase hex SHA-256 of a string, as `hex_sha256` in
src/crypto/envelope.rs. -/
def hexSha256 (s : String) : String :=
  hexOfBytes (sha256 (strBytes s))

/-! ## Idealised age construction (the age crate, x25519 recipients)

An age ciphertext is modelled as the byte-level injective encoding of the
recipient public keys together with the plaintext, prefixed by the age
header label.  Decryption succeeds exactly when the decrypting identity's
public key is among the recipients, which is the behavioural contract the
repository relies on. -/

/-- An X25519 recipient (public key), `age::x25519::Recipient`. -/
structure AgeRecipient where
  pk : Nat
  deriving Repr, DecidableEq

/-- An X25519 identity (secret key), `age::x25519::Identity`. -/
structure AgeIdentity where
  sk : Nat
  deriving Repr, DecidableEq

/-- Public-key derivation `Identity::to_public`, modelled as the identity
map on the secret scalar (the derivation is a bijection on scalars). -/
def AgeIdentity.toPublic (i : AgeIdentity) : AgeRecipient :=
  ⟨i.sk⟩

/-- The age format header label bytes. -/
def ageHeader : List Nat :=
  "age-encryption.org/v1".data.map Char.toNat

/-- The age ciphertext for a plaintext and a recipient set. -/
def ageEncryptBytes (data : List Nat) (recipients : List AgeRecipient) : List Nat :=
  ageHeader ++ encNatList (recipients.map AgeRecipient.pk) ++ encNatList data

/-- Decrypt an age ciphertext, `age_decrypt` in src/crypto/signing.rs and
src/crypto/at_rest.rs: parse the header, then succeed exactly when the
identity's public key is among the recipients. -/
def ageDecryptBytes (ct : List Nat) (identity : AgeIdentity) : RustResult (List Nat) :=
  if ageHeader.isPrefixOf ct then
    match decNatList (ct.drop ageHeader.length) with
    | some (pks, rest) =>
      match decNatList rest with
      | some (data, rest2) =>
        if rest2 = [] then
          if identity.toPublic.pk ∈ pks then RustResult.ok data
          else RustResult.err "age decryption failed: no matching key"
        else RustResult.err "failed to read age header"
      | none => RustResult.err "failed to read age header"
    | none => RustResult.err "failed to read age header"
  else RustResult.err "failed to read age header"

/-- The `age_encrypt_multi` of src/crypto/signing.rs.  It has no emptiness
guard: `Encryptor::with_recipients` returns `None` on an empty recipient
iterator and the `.expect("recipients should not be empty")` call turns
that into a panic. -/
def signingAgeEncryptMulti (data : List Nat) (recipients : List AgeRecipient) :
    RustResult (List Nat) :=
  if recipients.isEmpty then RustResult.panicked "recipients should not be empty"
  else RustResult.ok (ageEncryptBytes data recipients)

/-- The `age_encrypt_multi` of src/crypto/at_rest.rs, which refuses an empty
recipient list with a structured error before building the encryptor. -/
def atRestAgeEncryptMulti (data : List Nat) (recipients : List AgeRecipient) :
    RustResult (List Nat) :=
  if recipients.isEmpty then
    RustResult.err "at least one recipient is required for encryption"
  else RustResult.ok (ageEncryptBytes data recipients)

/-! ## Idealised ed25519 (the ed25519-dalek crate)

Verifying keys are 32-byte strings; the key of a signing key and the
signature on a message are deterministic SHA-256-derived tags.  The model
keeps the completeness property the code relies on: the genuine signature
verifies under the matching verifying key, and verification recomputes the
tag from public data only. -/

/-- The 32 verifying-key bytes derived from a signing key. -/
def vkBytes (sk : Nat) : List Nat :=
  sha256 (encNat sk)

/-- The 64 signature bytes on a message under a verifying key. -/
def signatureBytes (vk : List Nat) (msg : List Nat) : List Nat :=
  sha256 (0 :: vk ++ msg) ++ sha256 (1 :: vk ++ msg)

/-- Ed25519 signature verification in the idealised model. -/
def edVerify (vk : List Nat) (msg : List Nat) (sig : List Nat) : Bool :=
  sig == signatureBytes vk msg

/-! ## Identities (src/keys/identity.rs) -/

/-- An enseal identity: the age keypair plus the ed25519 signing key. -/
structure EnsealIdentity where
  age_identity : AgeIdentity
  signing_key : Nat
  deriving Repr, DecidableEq

/-- The stored `age_recipient` field, always `age_identity.to_public()`. -/
def EnsealIdentity.age_recipient (i : EnsealIdentity) : AgeRecipient :=
  i.age_identity.toPublic

/-- A trusted public-key bundle: age recipient plus ed25519 verifying key. -/
structure TrustedKey where
  identity : String
  age_recipient : AgeRecipient
  verifying_key : List Nat
  deriving Repr, DecidableEq

/-- Textual form of an age recipient, `Recipient::to_string`. -/
def AgeRecipient.toText (r : AgeRecipient) : String :=
  "age1" ++ toString r.pk

/-! ## SignedEnvelope (src/crypto/signing.rs) -/

/-- The outer wire unit: age ciphertext, sender keys, signature. -/
structure SignedEnvelope where
  ciphertext : List Nat
  sender_sign_pubkey : String
  sender_age_pubkey : String
  signature : String
  deriving Repr, DecidableEq

/-- `SignedEnvelope::seal`: age-encrypt to the recipients, ed25519-sign the
ciphertext, record the sender's public keys. -/
def SignedEnvelope.seal (inner_bytes : List Nat) (recipients : List AgeRecipient)
    (sender : EnsealIdentity) : RustResult SignedEnvelope :=
  RustResult.bind (signingAgeEncryptMulti inner_bytes recipients) fun ciphertext =>
    RustResult.ok
      { ciphertext := ciphertext
        sender_sign_pubkey := b64Encode (vkBytes sender.signing_key)
        sender_age_pubkey := sender.age_recipient.toText
        signature := b64Encode (signatureBytes (vkBytes sender.signing_key) ciphertext) }

/-- The signature-verification and decryption tail of `SignedEnvelope::open`,
after the sender key has been decoded and checked. -/
def SignedEnvelope.verifyAndDecrypt (se : SignedEnvelope) (own : EnsealIdentity)
    (verifying_key : List Nat) : RustResult (List Nat) :=
  match b64Decode se.signature with
  | none => RustResult.err "invalid signature encoding"
  | some sig_bytes =>
    if sig_bytes.length ≠ 64 then RustResult.err "invalid signature length"
    else if edVerify verifying_key se.ciphertext sig_bytes then
      ageDecryptBytes se.ciphertext own.age_identity
    else RustResult.err "signature verification failed: payload may be tampered"

/-- `SignedEnvelope::open`: decode the declared sender signing key, compare
it with the expected sender when one is supplied, verify the signature over
the ciphertext, then age-decrypt with the receiver's identity.  Named
`openWith` because `open` is reserved in Lean. -/
def SignedEnvelope.openWith (se : SignedEnvelope) (own : EnsealIdentity)
    (expected_sender : Option TrustedKey) : RustResult (List Nat) :=
  match b64Decode se.sender_sign_pubkey with
  | none => RustResult.err "invalid sender signing key encoding"
  | some sign_bytes =>
    if sign_bytes.length ≠ 32 then RustResult.err "invalid sender signing key length"
    else
      match expected_sender with
      | some trusted =>
        if sign_bytes ≠ trusted.verifying_key then
          RustResult.err "sender key mismatch: expected a different key"
        else se.verifyAndDecrypt own sign_bytes
      | none => se.verifyAndDecrypt own sign_bytes

/-! ## Envelope (src/crypto/envelope.rs) -/

/-- The payload format of an envelope. -/
inductive PayloadFormat where
  | env
  | kv
  | raw
  deriving Repr, DecidableEq

/-- Envelope metadata as held in memory after deserialisation. -/
structure Metadata where
  var_count : Option Nat
  label : Option String
  sha256 : String
  project : Option String
  created_at : Nat
  deriving Repr, DecidableEq

/-- The inner semantic envelope. -/
structure Envelope where
  version : Nat
  format : PayloadFormat
  metadata : Metadata
  payload : String
  deriving Repr, DecidableEq

/-- `Envelope::check_age`: reject a zero timestamp, a timestamp more than 60
seconds in the future, and an age above the bound.  The clock reading
`SystemTime::now` is a parameter; `saturating_sub` is truncated `Nat`
subtraction. -/
def Envelope.check_age (e : Envelope) (now : Nat) (max_age_secs : Nat) :
    RustResult Unit :=
  if e.metadata.created_at = 0 then
    RustResult.err "envelope has no timestamp"
  else if e.metadata.created_at > now + 60 then
    RustResult.err "envelope timestamp is in the future"
  else if now - e.metadata.created_at > max_age_secs then
    RustResult.err "envelope expired"
  else RustResult.ok ()

/-- Envelope metadata as it appears on the wire: `created_at` carries
`#[serde(default)]`, so it may be absent and then decodes to 0. -/
structure WireMetadata where
  var_count : Option Nat
  label : Option String
  sha256 : String
  project : Option String
  created_at : Option Nat
  deriving Repr, DecidableEq

/-- A well-formed wire record for an envelope. -/
structure WireEnvelope where
  version : Nat
  format : PayloadFormat
  metadata : WireMetadata
  payload : String
  deriving Repr, DecidableEq

/-- The envelope a wire record deserialises to: an absent `created_at`
becomes 0. -/
def WireEnvelope.toEnvelope (w : WireEnvelope) : Envelope :=
  { version := w.version
    format := w.format
    metadata :=
      { var_count := w.metadata.var_count
        label := w.metadata.label
        sha256 := w.metadata.sha256
        project := w.metadata.project
        created_at := w.metadata.created_at.getD 0 }
    payload := w.payload }

/-- A byte string input to `Envelope::from_bytes`, abstracted to its length
together with the result of `serde_json::from_slice` on it: `none` when the
bytes are not a well-formed record. -/
structure WireBytes where
  size : Nat
  parsed : Option WireEnvelope
  deriving Repr, DecidableEq

/-- `Envelope::from_bytes`: refuse oversized input, deserialise, refuse a
version other than 1, recompute the payload hash and refuse a mismatch. -/
def Envelope.from_bytes (data : WireBytes) : RustResult Envelope :=
  if data.size > 16 * 1024 * 1024 then
    RustResult.err "envelope data exceeds maximum size (16 MiB)"
  else
    match data.parsed with
    | none => RustResult.err "failed to deserialize envelope"
    | some w =>
      let envelope := w.toEnvelope
      if envelope.version ≠ 1 then
        RustResult.err "unsupported envelope version"
      else if envelope.metadata.sha256 ≠ hexSha256 envelope.payload then
        RustResult.err "integrity check failed: payload hash mismatch"
      else RustResult.ok envelope

/-- A wire record with one character of its stored hash replaced, the model
of altering a single byte of the serialised `sha256` field. -/
def alterHashChar (w : WireEnvelope) (i : Nat) (c : Char) : WireEnvelope :=
  { w with metadata := { w.metadata with sha256 := ⟨w.metadata.sha256.data.set i c⟩ } }

/-! ## Identity-name validation (src/keys/store.rs) -/

/-- Rust `u8::is_ascii_control` lifted to chars: C0 controls and DEL. -/
def isAsciiControl (c : Char) : Bool :=
  c.toNat < 32 || c.toNat == 127

/-- `validate_identity_name`: reject the empty name, path separators, a
`..` occurrence, NUL, a leading dot, and ASCII control characters or the
space character, in the order the code checks them. -/
def validate_identity_name (identity : String) : RustResult Unit :=
  if identity.data = [] then
    RustResult.err "identity name cannot be empty"
  else if identity.data.contains '/' || identity.data.contains '\\' then
    RustResult.err "identity name contains path separators, which is not allowed"
  else if "..".data <:+: identity.data then
    RustResult.err "identity name contains two dots, which is not allowed"
  else if identity.data.contains (Char.ofNat 0) then
    RustResult.err "identity name contains null bytes, which is not allowed"
  else if identity.data.head? = some '.' then
    RustResult.err "identity name cannot start with a dot"
  else if identity.data.any (fun c => isAsciiControl c || c == ' ') then
    RustResult.err "identity name contains whitespace or control characters, which is not allowed"
  else RustResult.ok ()

/-- Stated from the spec wording of C6: a whitespace character, read as the
Unicode White_Space property (what `char::is_whitespace` tests in Rust). -/
def isUnicodeWhitespace (c : Char) : Bool :=
  let n := c.toNat
  (9 ≤ n && n ≤ 13) || n == 32 || n == 133 || n == 160 || n == 5760 ||
    (8192 ≤ n && n ≤ 8202) || n == 8232 || n == 8233 || n == 8239 ||
    n == 8287 || n == 12288

/-! ## Parsed .env files and the at-rest per-variable codec
(src/env/mod.rs, src/crypto/at_rest.rs) -/

/-- A single entry of a parsed .env file. -/
inductive Entry where
  | keyValue (key : String) (value : String)
  | comment (text : String)
  | blank
  deriving Repr, DecidableEq

/-- A parsed .env file preserving structure. -/
structure EnvFile where
  entries : List Entry
  deriving Repr, DecidableEq

/-- `EnvFile::vars`: the key-value pairs in order. -/
def EnvFile.vars (e : EnvFile) : List (String × String) :=
  e.entries.filterMap fun entry =>
    match entry with
    | Entry.keyValue k v => some (k, v)
    | _ => none

/-- The `ENC[age:` wrapper head. -/
def perVarPrefix : String := "ENC[age:"

/-- The `]` wrapper tail. -/
def perVarSuffix : String := "]"

/-- `is_encrypted_value`: the value carries the `ENC[age:...]` wrapper. -/
def is_encrypted_value (value : String) : Bool :=
  perVarPrefix.data.isPrefixOf value.data &&
    perVarSuffix.data.isSuffixOf value.data

/-- Per-variable encryption of one entry: key-value entries get their value
age-encrypted, base64-encoded, and wrapped; other entries pass through. -/
def encryptEntry (recipients : List AgeRecipient) : Entry → RustResult Entry
  | Entry.keyValue k v =>
    RustResult.map
      (fun ct => Entry.keyValue k (perVarPrefix ++ b64Encode ct ++ perVarSuffix))
      (atRestAgeEncryptMulti (strBytes v) recipients)
  | other => RustResult.ok other

/-- Per-variable decryption of one entry: wrapped values are unwrapped,
base64-decoded, age-decrypted, and read back as UTF-8; everything else
passes through. -/
def decryptEntry (identity : AgeIdentity) : Entry → RustResult Entry
  | Entry.keyValue k v =>
    if is_encrypted_value v then
      match b64Decode ⟨(v.data.drop perVarPrefix.data.length).dropLast⟩ with
      | none => RustResult.err "invalid base64 in encrypted value"
      | some ct =>
        RustResult.bind (ageDecryptBytes ct identity) fun pt =>
          match bytesToStr pt with
          | some s => RustResult.ok (Entry.keyValue k s)
          | none => RustResult.err "decrypted value is not valid UTF-8"
    else RustResult.ok (Entry.keyValue k v)
  | other => RustResult.ok other

/-- The pure entry transformation `encryptEntry` performs when the
recipient list is non-empty. -/
def encEntryFun (recipients : List AgeRecipient) : Entry → Entry
  | Entry.keyValue k v =>
    Entry.keyValue k
      (perVarPrefix ++ b64Encode (ageEncryptBytes (strBytes v) recipients) ++ perVarSuffix)
  | other => other

/-- Error-propagating traversal of an entry list. -/
def mapMEntries (f : Entry → RustResult Entry) : List Entry → RustResult (List Entry)
  | [] => RustResult.ok []
  | e :: rest =>
    RustResult.bind (f e) fun e2 =>
      RustResult.map (fun r => e2 :: r) (mapMEntries f rest)

/-- `encrypt_per_var`: encrypt each value individually, keys stay visible. -/
def encrypt_per_var (env : EnvFile) (recipients : List AgeRecipient) :
    RustResult EnvFile :=
  RustResult.map EnvFile.mk (mapMEntries (encryptEntry recipients) env.entries)

/-- `decrypt_per_var`: decrypt each wrapped value individually. -/
def decrypt_per_var (env : EnvFile) (identity : AgeIdentity) :
    RustResult EnvFile :=
  RustResult.map EnvFile.mk (mapMEntries (decryptEntry identity) env.entries)

/-! ## Relay client channel-code validation (src/transfer/relay.rs) -/

/-- One character of the channel-code alphabet:
`c.is_ascii_alphanumeric() || c == '-'`. -/
def isChannelCodeChar (c : Char) : Bool :=
  (48 ≤ c.toNat && c.toNat ≤ 57) || (65 ≤ c.toNat && c.toNat ≤ 90) ||
    (97 ≤ c.toNat && c.toNat ≤ 122) || c == '-'

/-- The validation prefix of `relay::send`: the function bails with the
invalid-code error before any network activity; reaching `ok` means it
proceeds to connect. -/
def relay_send_gate (code : String) : RustResult Unit :=
  if !(code.data.all isChannelCodeChar) then
    RustResult.err "invalid channel code: contains disallowed characters"
  else RustResult.ok ()

/-- The validation prefix of `relay::receive`, identical to the send side. -/
def relay_receive_gate (code : String) : RustResult Unit :=
  if !(code.data.all isChannelCodeChar) then
    RustResult.err "invalid channel code: contains disallowed characters"
  else RustResult.ok ()

/-- `relay::push` delegates to `relay::send`. -/
def relay_push_gate (channel_id : String) : RustResult Unit :=
  relay_send_gate channel_id

/-- `relay::listen` delegates to `relay::receive`. -/
def relay_listen_gate (channel_id : String) : RustResult Unit :=
  relay_receive_gate channel_id

/-! ## Identity-mode send orchestration
(src/cli/share.rs, src/transfer/filedrop.rs, src/transfer/identity.rs) -/

/-- The recipient list built by `send_identity_mode` in src/cli/share.rs:
exactly the age recipients of the resolved trusted keys. -/
def share_age_recipients (trusted_keys : List TrustedKey) : List AgeRecipient :=
  trusted_keys.map TrustedKey.age_recipient

/-- The file-drop branch of `send_identity_mode`, through
`filedrop::write`: wrap the inner envelope bytes in a `SignedEnvelope`
sealed to the resolved recipients.  The serde wire serialisation of the
signed envelope is abstracted to the record itself. -/
def send_identity_filedrop (inner_bytes : List Nat) (trusted_keys : List TrustedKey)
    (sender : EnsealIdentity) : RustResult SignedEnvelope :=
  SignedEnvelope.seal inner_bytes (share_age_recipients trusted_keys) sender

/-- The relay-push branch of `send_identity_mode`: same wrapping, same
recipient list. -/
def send_identity_relay_push (inner_bytes : List Nat) (trusted_keys : List TrustedKey)
    (sender : EnsealIdentity) : RustResult SignedEnvelope :=
  SignedEnvelope.seal inner_bytes (share_age_recipients trusted_keys) sender

/-- The wormhole-mailbox branch of `send_identity_mode`, through
`transfer::identity::create_mailbox`: same wrapping, same recipient list. -/
def send_identity_wormhole (inner_bytes : List Nat) (trusted_keys : List TrustedKey)
    (sender : EnsealIdentity) : RustResult SignedEnvelope :=
  SignedEnvelope.seal inner_bytes (share_age_recipients trusted_keys) sender

/-! ## Relay server rate limiting (src/server/mailbox.rs)

`Instant` values are modelled as `Nat` seconds; the per-IP connection log is
the total map behind `HashMap::entry(ip).or_default()`. -/

/-- The relay state fields involved in admission control. -/
structure RelayState where
  connection_log : Nat → List Nat
  rate_limit_per_min : Nat

/-- `RelayState::check_rate_limit`: retain log entries newer than 60
seconds, reject when the retained count has reached the limit, otherwise
record the new connection.  The clock is a parameter. -/
def check_rate_limit (st : RelayState) (ip : Nat) (now : Nat) :
    Bool × RelayState :=
  let cutoff := now - 60
  let kept := (st.connection_log ip).filter fun t => cutoff < t
  if st.rate_limit_per_min ≤ kept.length then
    (false,
      { st with connection_log := fun j => if j = ip then kept else st.connection_log j })
  else
    (true,
      { st with connection_log :=
          fun j => if j = ip then kept ++ [now] else st.connection_log j })

/-- The admission decision of the WebSocket upgrade handler. -/
inductive UpgradeResponse where
  | tooManyRequests
  | upgraded
  deriving Repr, DecidableEq

/-- The admission head of `ws_handler`: HTTP 429 when the rate limit check
fails, otherwise the upgrade proceeds. -/
def ws_handler (st : RelayState) (ip : Nat) (now : Nat) :
    UpgradeResponse × RelayState :=
  let r := check_rate_limit st ip now
  if r.1 then (UpgradeResponse.upgraded, r.2)
  else (UpgradeResponse.tooManyRequests, r.2)

/-- Process a sequence of upgrade attempts from one IP at the given
instants. -/
def processUpgrades (st : RelayState) (ip : Nat) :
    List Nat → List UpgradeResponse × RelayState
  | [] => ([], st)
  | t :: ts =>
    let r := ws_handler st ip t
    let rest := processUpgrades r.2 ip ts
    (r.1 :: rest.1, rest.2)

/-! ## General lemmas about the embedded definitions -/

theorem readDigits_append (ds : List Nat) (rest : List Nat)
    (h : ∀ d ∈ ds, d ≠ 255) :
    readDigits (ds ++ 255 :: rest) = some (ds, rest) := by
  induction ds with
  | nil => simp [readDigits]
  | cons d ds ih =>
    have hd : d ≠ 255 := h d (List.mem_cons_self d ds)
    have hrest : ∀ x ∈ ds, x ≠ 255 := fun x hx => h x (List.mem_cons_of_mem d hx)
    simp [readDigits, hd, ih hrest]

theorem decNat_encNat (n : Nat) (rest : List Nat) :
    decNat (encNat n ++ rest) = some (n, rest) := by
  have hds : ∀ d ∈ Nat.digits 255 n, d ≠ 255 := by
    intro d hd
    have := Nat.digits_lt_base (by norm_num) hd
    omega
  have : encNat n ++ rest = Nat.digits 255 n ++ 255 :: rest := by
    simp [encNat]
  rw [this, decNat, readDigits_append _ _ hds]
  simp [Nat.ofDigits_digits]

theorem decNats_append (l : List Nat) (rest : List Nat) :
    decNats l.length (l.flatMap encNat ++ rest) = some (l, rest) := by
  induction l with
  | nil => simp [decNats]
  | cons n ns ih =>
    simp only [List.length_cons, List.flatMap_cons, List.append_assoc, decNats]
    rw [decNat_encNat]
    simp [ih]

theorem decNatList_encNatList (l : List Nat) (rest : List Nat) :
    decNatList (encNatList l ++ rest) = some (l, rest) := by
  rw [encNatList, List.append_assoc, decNatList, decNat_encNat]
  simp [decNats_append]

theorem charSextet_sextetChar (n : Nat) (h : n < 64) :
    charSextet (sextetChar n) = some n := by
  interval_cases n <;> rfl

theorem sextetChar_ne_eq (n : Nat) (h : n < 64) : (sextetChar n = '=') = False := by
  interval_cases n <;> simp [sextetChar, b64Table]

theorem b64DecodeChars_encodeChars (l : List Nat) (h : ∀ b ∈ l, b < 256) :
    b64DecodeChars (b64EncodeChars l) = some l := by
  match l with
  | [] => rfl
  | [b1] =>
    have hb1 : b1 < 256 := h b1 (by simp)
    rw [b64EncodeChars]
    simp only [b64DecodeChars]
    rw [charSextet_sextetChar _ (by omega), charSextet_sextetChar _ (by omega)]
    simp only []
    norm_num
    omega
  | [b1, b2] =>
    have hb1 : b1 < 256 := h b1 (by simp)
    have hb2 : b2 < 256 := h b2 (by simp)
    rw [b64EncodeChars]
    simp only [b64DecodeChars]
    rw [charSextet_sextetChar _ (by omega), charSextet_sextetChar _ (by omega)]
    simp only [sextetChar_ne_eq _ (by omega : (b1 * 1024 + b2 * 4) % 64 < 64),
      if_false]
    rw [charSextet_sextetChar _ (by omega)]
    simp
    omega
  | b1 :: b2 :: b3 :: rest =>
    have hb1 : b1 < 256 := h b1 (by simp)
    have hb2 : b2 < 256 := h b2 (by simp)
    have hb3 : b3 < 256 := h b3 (by simp)
    have hrest : ∀ b ∈ rest, b < 256 := fun b hb => h b (by simp [hb])
    have ih := b64DecodeChars_encodeChars rest hrest
    rw [b64EncodeChars]
    simp only [b64DecodeChars]
    rw [charSextet_sextetChar _ (by omega), charSextet_sextetChar _ (by omega)]
    simp only [sextetChar_ne_eq _
      (by omega : (b1 * 65536 + b2 * 256 + b3) / 64 % 64 < 64)]
    rw [charSextet_sextetChar _ (by omega)]
    simp only [sextetChar_ne_eq _
      (by omega : (b1 * 65536 + b2 * 256 + b3) % 64 < 64)]
    rw [charSextet_sextetChar _ (by omega), ih]
    simp only []
    norm_num
    refine ⟨by omega, by omega, by omega⟩

theorem b64Decode_b64Encode (l : List Nat) (h : ∀ b ∈ l, b < 256) :
    b64Decode (b64Encode l) = some l :=
  b64DecodeChars_encodeChars l h

theorem wordBytes_lt (w : Nat) : ∀ b ∈ wordBytes w, b < 256 := by
  intro b hb
  simp only [wordBytes, List.mem_cons, List.not_mem_nil, or_false] at hb
  rcases hb with rfl | rfl | rfl | rfl
  all_goals exact Nat.mod_lt _ (by norm_num)

theorem wordBytes_length (w : Nat) : (wordBytes w).length = 4 := rfl

theorem sha256_lt (msg : List Nat) : ∀ b ∈ sha256 msg, b < 256 := by
  intro b hb
  rw [sha256] at hb
  simp only [List.mem_append] at hb
  rcases hb with ((((((h | h) | h) | h) | h) | h) | h) | h
  all_goals exact wordBytes_lt _ _ h

theorem sha256_length (msg : List Nat) : (sha256 msg).length = 32 := by
  rw [sha256]
  simp [wordBytes_length]

theorem bytesToStr_strBytes (s : String) : bytesToStr (strBytes s) = some s := by
  have hvalid : ∀ n ∈ strBytes s, n.isValidChar := by
    intro n hn
    rw [strBytes, List.mem_map] at hn
    obtain ⟨c, _, rfl⟩ := hn
    exact c.valid
  rw [bytesToStr, dif_pos hvalid]
  have : (strBytes s).map Char.ofNat = s.data := by
    rw [strBytes, List.map_map]
    have : (Char.ofNat ∘ Char.toNat) = id := by
      funext c
      exact Char.ofNat_toNat c
    rw [this, List.map_id]
  rw [this]

theorem ageDecryptBytes_ageEncryptBytes (d : List Nat) (rs : List AgeRecipient)
    (i : AgeIdentity) :
    ageDecryptBytes (ageEncryptBytes d rs) i =
      if i.toPublic.pk ∈ rs.map AgeRecipient.pk then RustResult.ok d
      else RustResult.err "age decryption failed: no matching key" := by
  have hpre : ageHeader.isPrefixOf (ageEncryptBytes d rs) = true := by
    rw [List.isPrefixOf_iff_prefix]
    exact ⟨encNatList (rs.map AgeRecipient.pk) ++ encNatList d, by
      simp [ageEncryptBytes]⟩
  have hdrop : (ageEncryptBytes d rs).drop ageHeader.length =
      encNatList (rs.map AgeRecipient.pk) ++ encNatList d := by
    rw [ageEncryptBytes, List.append_assoc, List.drop_left]
  have h1 : encNatList (rs.map AgeRecipient.pk) ++ encNatList d =
      encNatList (rs.map AgeRecipient.pk) ++ (encNatList d ++ []) := by simp
  have h2 : decNatList (encNatList d) = some (d, []) := by
    simpa using decNatList_encNatList d []
  rw [ageDecryptBytes, if_pos hpre, hdrop, h1, decNatList_encNatList]
  simp [h2]

theorem vkBytes_length (sk : Nat) : (vkBytes sk).length = 32 :=
  sha256_length _

theorem vkBytes_lt (sk : Nat) : ∀ b ∈ vkBytes sk, b < 256 :=
  sha256_lt _

theorem signatureBytes_length (vk msg : List Nat) :
    (signatureBytes vk msg).length = 64 := by
  rw [signatureBytes, List.length_append, sha256_length, sha256_length]

theorem signatureBytes_lt (vk msg : List Nat) :
    ∀ b ∈ signatureBytes vk msg, b < 256 := by
  intro b hb
  rw [signatureBytes, List.mem_append] at hb
  rcases hb with h | h
  · exact sha256_lt _ _ h
  · exact sha256_lt _ _ h

theorem encNat_lt (n : Nat) : ∀ b ∈ encNat n, b < 256 := by
  intro b hb
  rw [encNat, List.mem_append] at hb
  rcases hb with h | h
  · have := Nat.digits_lt_base (by norm_num) h
    omega
  · simp at h
    omega

theorem encNatList_lt (l : List Nat) : ∀ b ∈ encNatList l, b < 256 := by
  intro b hb
  rw [encNatList, List.mem_append] at hb
  rcases hb with h | h
  · exact encNat_lt _ b h
  · rw [List.mem_flatMap] at h
    obtain ⟨a, _, hmem⟩ := h
    exact encNat_lt a b hmem

theorem ageHeader_lt : ∀ b ∈ ageHeader, b < 256 := by
  decide

theorem ageEncryptBytes_lt (d : List Nat) (rs : List AgeRecipient) :
    ∀ b ∈ ageEncryptBytes d rs, b < 256 := by
  intro b hb
  rw [ageEncryptBytes, List.append_assoc, List.mem_append] at hb
  rcases hb with h | h
  · exact ageHeader_lt b h
  · rw [List.mem_append] at h
    rcases h with h | h
    · exact encNatList_lt _ b h
    · exact encNatList_lt _ b h

theorem seal_nonempty_ok (inner : List Nat) (rs : List AgeRecipient)
    (sender : EnsealIdentity) (hne : rs ≠ []) :
    SignedEnvelope.seal inner rs sender = RustResult.ok
      { ciphertext := ageEncryptBytes inner rs
        sender_sign_pubkey := b64Encode (vkBytes sender.signing_key)
        sender_age_pubkey := sender.age_recipient.toText
        signature := b64Encode
          (signatureBytes (vkBytes sender.signing_key) (ageEncryptBytes inner rs)) } := by
  have hempty : rs.isEmpty = false := by
    cases rs with
    | nil => exact absurd rfl hne
    | cons a l => rfl
  rw [SignedEnvelope.seal, signingAgeEncryptMulti, hempty]
  rfl

theorem openWith_seal (inner : List Nat) (rs : List AgeRecipient)
    (sender own : EnsealIdentity) (hne : rs ≠ []) :
    RustResult.bind (SignedEnvelope.seal inner rs sender)
      (fun se => se.openWith own none) =
      (if own.age_identity.toPublic.pk ∈ rs.map AgeRecipient.pk then
        RustResult.ok inner
      else RustResult.err "age decryption failed: no matching key") := by
  rw [seal_nonempty_ok inner rs sender hne]
  show SignedEnvelope.openWith _ own none = _
  rw [SignedEnvelope.openWith]
  simp only [b64Decode_b64Encode _ (vkBytes_lt sender.signing_key), vkBytes_length,
    ne_eq, reduceIte]
  rw [SignedEnvelope.verifyAndDecrypt]
  simp only [b64Decode_b64Encode _
    (signatureBytes_lt (vkBytes sender.signing_key) (ageEncryptBytes inner rs)),
    signatureBytes_length, ne_eq, reduceIte]
  rw [edVerify]
  simp only [beq_self_eq_true, if_true]
  exact ageDecryptBytes_ageEncryptBytes inner rs own.age_identity

theorem encryptEntry_eq (rs : List AgeRecipient) (e : Entry) (hne : rs ≠ []) :
    encryptEntry rs e = RustResult.ok (encEntryFun rs e) := by
  have hempty : rs.isEmpty = false := by
    cases rs with
    | nil => exact absurd rfl hne
    | cons a l => rfl
  cases e with
  | keyValue k v =>
    rw [encryptEntry, atRestAgeEncryptMulti, hempty]
    rfl
  | comment t => rfl
  | blank => rfl

theorem decryptEntry_encEntryFun (i : AgeIdentity) (e : Entry) :
    decryptEntry i (encEntryFun [i.toPublic] e) = RustResult.ok e := by
  cases e with
  | comment t => rfl
  | blank => rfl
  | keyValue k v =>
    rw [encEntryFun, decryptEntry]
    have hdata : (perVarPrefix ++ b64Encode (ageEncryptBytes (strBytes v) [i.toPublic]) ++
        perVarSuffix).data = perVarPrefix.data ++
          (b64EncodeChars (ageEncryptBytes (strBytes v) [i.toPublic]) ++
            perVarSuffix.data) := by
      rw [String.data_append, String.data_append, List.append_assoc]
      rfl
    have henc : is_encrypted_value (perVarPrefix ++
        b64Encode (ageEncryptBytes (strBytes v) [i.toPublic]) ++ perVarSuffix) = true := by
      rw [is_encrypted_value, hdata]
      apply Bool.and_eq_true_iff.mpr
      constructor
      · rw [List.isPrefixOf_iff_prefix]
        exact ⟨_, rfl⟩
      · rw [List.isSuffixOf_iff_suffix]
        exact ⟨perVarPrefix.data ++ b64EncodeChars (ageEncryptBytes (strBytes v) [i.toPublic]),
          by rw [List.append_assoc]⟩
    rw [henc, if_pos rfl, hdata, List.drop_left]
    have hsuffix : b64EncodeChars (ageEncryptBytes (strBytes v) [i.toPublic]) ++
        perVarSuffix.data = b64EncodeChars (ageEncryptBytes (strBytes v) [i.toPublic]) ++
          [']'] := rfl
    rw [hsuffix, List.dropLast_concat]
    have hb64 : b64Decode ⟨b64EncodeChars (ageEncryptBytes (strBytes v) [i.toPublic])⟩ =
        some (ageEncryptBytes (strBytes v) [i.toPublic]) :=
      b64DecodeChars_encodeChars _ (ageEncryptBytes_lt _ _)
    rw [hb64]
    have hdec : ageDecryptBytes (ageEncryptBytes (strBytes v) [i.toPublic]) i =
        RustResult.ok (strBytes v) := by
      rw [ageDecryptBytes_ageEncryptBytes]
      simp
    simp only [hdec, RustResult.bind, bytesToStr_strBytes]

theorem mapMEntries_ok_of_map (f : Entry → RustResult Entry) (g : Entry → Entry)
    (l : List Entry) (h : ∀ e ∈ l, f e = RustResult.ok (g e)) :
    mapMEntries f l = RustResult.ok (l.map g) := by
  induction l with
  | nil => rfl
  | cons e rest ih =>
    rw [mapMEntries, h e (List.mem_cons_self e rest),
      ih fun x hx => h x (List.mem_cons_of_mem e hx)]
    rfl

theorem mapMEntries_map_ok (f : Entry → RustResult Entry) (g : Entry → Entry)
    (l : List Entry) (h : ∀ e ∈ l, f (g e) = RustResult.ok e) :
    mapMEntries f (l.map g) = RustResult.ok l := by
  induction l with
  | nil => rfl
  | cons e rest ih =>
    rw [List.map_cons, mapMEntries, h e (List.mem_cons_self e rest),
      ih fun x hx => h x (List.mem_cons_of_mem e hx)]
    rfl

theorem vars_map_encEntryFun_fst (rs : List AgeRecipient) (l : List Entry) :
    ((EnvFile.mk (l.map (encEntryFun rs))).vars.map Prod.fst) =
      ((EnvFile.mk l).vars.map Prod.fst) := by
  induction l with
  | nil => rfl
  | cons e rest ih =>
    cases e with
    | keyValue k v =>
      simp only [EnvFile.vars, List.map_cons, encEntryFun, List.filterMap_cons] at *
      simpa using ih
    | comment t =>
      simp only [EnvFile.vars, List.map_cons, encEntryFun, List.filterMap_cons] at *
      exact ih
    | blank =>
      simp only [EnvFile.vars, List.map_cons, encEntryFun, List.filterMap_cons] at *
      exact ih

theorem ws_handler_admit (st : RelayState) (ip now : Nat)
    (hlen : ((st.connection_log ip).filter fun t => now - 60 < t).length <
      st.rate_limit_per_min) :
    ws_handler st ip now = (UpgradeResponse.upgraded,
      { st with connection_log := fun j => if j = ip then
          ((st.connection_log ip).filter fun t => now - 60 < t) ++ [now]
        else st.connection_log j }) := by
  rw [ws_handler, check_rate_limit]
  simp only [Nat.not_le.mpr hlen, reduceIte, if_neg (Nat.not_le.mpr hlen)]

theorem ws_handler_reject (st : RelayState) (ip now : Nat)
    (hlen : st.rate_limit_per_min ≤
      ((st.connection_log ip).filter fun t => now - 60 < t).length) :
    (ws_handler st ip now).1 = UpgradeResponse.tooManyRequests := by
  rw [ws_handler, check_rate_limit, if_pos hlen]
  simp

theorem processUpgrades_all_admitted (ip : Nat) (ts : List Nat) :
    ∀ (st : RelayState) (l : List Nat),
    st.connection_log ip = l →
    l.length + ts.length ≤ st.rate_limit_per_min →
    (∀ x ∈ l, ∀ t ∈ ts, t - 60 < x) →
    List.Pairwise (fun a b => b - 60 < a) ts →
    (processUpgrades st ip ts).1 = List.replicate ts.length UpgradeResponse.upgraded ∧
    (processUpgrades st ip ts).2.connection_log ip = l ++ ts ∧
    (processUpgrades st ip ts).2.rate_limit_per_min = st.rate_limit_per_min := by
  induction ts with
  | nil =>
    intro st l hlog _ _ _
    exact ⟨rfl, by simpa [processUpgrades] using hlog, rfl⟩
  | cons t ts ih =>
    intro st l hlog hlen hkeep hpair
    have hfilter : ((st.connection_log ip).filter fun x => t - 60 < x) = l := by
      rw [hlog]
      rw [List.filter_eq_self]
      intro x hx
      exact decide_eq_true (hkeep x hx t (List.mem_cons_self t ts))
    have hadmit := ws_handler_admit st ip t (by
      rw [hfilter]
      simp only [List.length_cons] at hlen
      omega)
    rw [hfilter] at hadmit
    have hnext := ih
      { st with connection_log := fun j => if j = ip then l ++ [t] else st.connection_log j }
      (l ++ [t]) (by simp)
      (by
        simp only [List.length_append, List.length_cons, List.length_nil] at hlen ⊢
        omega)
      (by
        intro x hx u hu
        rw [List.mem_append] at hx
        rcases hx with hx | hx
        · exact hkeep x hx u (List.mem_cons_of_mem t hu)
        · simp only [List.mem_singleton] at hx
          subst hx
          exact (List.pairwise_cons.mp hpair).1 u hu)
      (List.Pairwise.of_cons hpair)
    rw [processUpgrades, hadmit]
    refine ⟨?_, ?_, ?_⟩
    · rw [List.length_cons, List.replicate_succ]
      simpa using hnext.1
    · simpa using hnext.2.1
    · simpa using hnext.2.2

theorem set_ne_of_getElem? (l : List Char) (i : Nat) (c c0 : Char)
    (hget : l[i]? = some c0) (hne : c ≠ c0) : l.set i c ≠ l := by
  intro he
  have hlt : i < l.length := (List.getElem?_eq_some_iff.mp hget).1
  have h1 : (l.set i c)[i]? = some c := List.getElem?_set_self hlt
  rw [he, hget] at h1
  exact hne (Option.some.inj h1.symm)

theorem processUpgrades_append (st : RelayState) (ip : Nat) (a b : List Nat) :
    processUpgrades st ip (a ++ b) =
      ((processUpgrades st ip a).1 ++
        (processUpgrades (processUpgrades st ip a).2 ip b).1,
        (processUpgrades (processUpgrades st ip a).2 ip b).2) := by
  induction a generalizing st with
  | nil => simp [processUpgrades]
  | cons t ts ih =>
    rw [List.cons_append, processUpgrades, processUpgrades, ih]
    rfl

theorem from_bytes_parsed (d : WireBytes) (w : WireEnvelope)
    (hp : d.parsed = some w) (hs : d.size ≤ 16 * 1024 * 1024) :
    Envelope.from_bytes d =
      (if w.version ≠ 1 then RustResult.err "unsupported envelope version"
       else if w.metadata.sha256 ≠ hexSha256 w.payload then
         RustResult.err "integrity check failed: payload hash mismatch"
       else RustResult.ok w.toEnvelope) := by
  rw [Envelope.from_bytes, if_neg (Nat.not_lt.mpr hs), hp]
  rfl

/-! ## The claims -/

/-- C5 (code-bug evidence): `SignedEnvelope::seal` on an empty recipient
list reaches the `expect` in the signing-side `age_encrypt_multi` and
panics instead of returning an error; the at-rest sibling of the same
helper returns the structured error the spec describes. -/
theorem seal_empty_recipients_panic :
    SignedEnvelope.seal [1, 2, 3] [] ⟨⟨0⟩, 0⟩ =
      RustResult.panicked "recipients should not be empty" ∧
    atRestAgeEncryptMulti [1, 2, 3] [] =
      RustResult.err "at least one recipient is required for encryption" :=
  ⟨rfl, rfl⟩

/-- C8 (counterexample): the empty channel code passes validation on both
the send and the receive side, because `chars().all` is vacuously true on
an empty string, so the claim that every empty code fails is false. -/
theorem relay_gate_empty_code_cex :
    ("" : String).data = [] ∧
    relay_send_gate "" = RustResult.ok () ∧
    relay_receive_gate "" = RustResult.ok () :=
  ⟨rfl, rfl, rfl⟩

/-- C8 (amended): both relay transport ends validate the channel code
against the alphabet A-Z, a-z, 0-9, and dash, failing with the
invalid-channel-code error exactly when some character falls outside it;
the empty code passes.  `push` and `listen` delegate to `send` and
`receive`. -/
theorem relay_gate_validation (code : String) :
    (relay_send_gate code = RustResult.ok () ↔
      ∀ c ∈ code.data, isChannelCodeChar c = true) ∧
    (relay_receive_gate code = RustResult.ok () ↔
      ∀ c ∈ code.data, isChannelCodeChar c = true) ∧
    ((¬ ∀ c ∈ code.data, isChannelCodeChar c = true) →
      relay_send_gate code =
        RustResult.err "invalid channel code: contains disallowed characters" ∧
      relay_receive_gate code =
        RustResult.err "invalid channel code: contains disallowed characters") ∧
    relay_push_gate code = relay_send_gate code ∧
    relay_listen_gate code = relay_receive_gate code := by
  have hall : code.data.all isChannelCodeChar = true ↔
      ∀ c ∈ code.data, isChannelCodeChar c = true := List.all_eq_true
  cases hb : code.data.all isChannelCodeChar with
  | false =>
    have hnot : ¬ ∀ c ∈ code.data, isChannelCodeChar c = true := by
      intro hc
      rw [hall.mpr hc] at hb
      cases hb
    have hsend : relay_send_gate code =
        RustResult.err "invalid channel code: contains disallowed characters" := by
      rw [relay_send_gate, hb]
      rfl
    have hrecv : relay_receive_gate code =
        RustResult.err "invalid channel code: contains disallowed characters" := by
      rw [relay_receive_gate, hb]
      rfl
    exact ⟨by rw [hsend]; exact iff_of_false (by simp) hnot,
      by rw [hrecv]; exact iff_of_false (by simp) hnot,
      fun _ => ⟨hsend, hrecv⟩, rfl, rfl⟩
  | true =>
    have hsend : relay_send_gate code = RustResult.ok () := by
      rw [relay_send_gate, hb]
      rfl
    have hrecv : relay_receive_gate code = RustResult.ok () := by
      rw [relay_receive_gate, hb]
      rfl
    exact ⟨by rw [hsend]; exact iff_of_true rfl (hall.mp hb),
      by rw [hrecv]; exact iff_of_true rfl (hall.mp hb),
      fun hc => absurd (hall.mp hb) hc, rfl, rfl⟩

/-- Witness for the C8 amended theorem at the code `a_b`, whose underscore
falls outside the alphabet. -/
theorem relay_gate_validation_witness :
    (¬ ∀ c ∈ ("a_b" : String).data, isChannelCodeChar c = true) ∧
    relay_send_gate "a_b" =
      RustResult.err "invalid channel code: contains disallowed characters" ∧
    relay_receive_gate "a_b" =
      RustResult.err "invalid channel code: contains disallowed characters" :=
  ⟨by decide, (relay_gate_validation "a_b").2.2.1 (by decide)⟩

/-- C4 (counterexample): with `now = 100`, `max age = 300`, a timestamp of
0 lies inside the claimed acceptance interval from `now - n` to `now + 60`,
yet `check_age` rejects it with the missing-timestamp error, so acceptance
is not exactly the interval. -/
theorem check_age_zero_timestamp_cex :
    ((100 : Int) - 300 ≤ 0 ∧ (0 : Int) ≤ 100 + 60) ∧
    Envelope.check_age ⟨1, PayloadFormat.raw, ⟨none, none, "h", none, 0⟩, "p"⟩ 100 300 =
      RustResult.err "envelope has no timestamp" :=
  ⟨by norm_num, rfl⟩

/-- C4 (amended): `check_age(n)` evaluated at clock `now` accepts exactly
the envelopes with a nonzero `created_at` lying between `now - n` and
`now + 60`; outside that a nonzero future timestamp beyond the skew gives
the distinct future error and an expired one the distinct expired error. -/
theorem check_age_accepts_iff (e : Envelope) (now n : Nat) :
    (Envelope.check_age e now n = RustResult.ok () ↔
      e.metadata.created_at ≠ 0 ∧ now - n ≤ e.metadata.created_at ∧
        e.metadata.created_at ≤ now + 60) ∧
    (e.metadata.created_at ≠ 0 → now + 60 < e.metadata.created_at →
      Envelope.check_age e now n = RustResult.err "envelope timestamp is in the future") ∧
    (e.metadata.created_at ≠ 0 → e.metadata.created_at ≤ now + 60 →
      n < now - e.metadata.created_at →
      Envelope.check_age e now n = RustResult.err "envelope expired") := by
  refine ⟨?_, ?_, ?_⟩
  · rw [Envelope.check_age]
    split_ifs with h1 h2 h3
    · exact iff_of_false (by simp) fun hc => hc.1 h1
    · exact iff_of_false (by simp) fun hc => by omega
    · exact iff_of_false (by simp) fun hc => by omega
    · exact iff_of_true rfl ⟨h1, by omega, by omega⟩
  · intro h1 h2
    rw [Envelope.check_age, if_neg h1, if_pos (by omega)]
  · intro h1 h2 h3
    rw [Envelope.check_age, if_neg h1, if_neg (by omega), if_pos (by omega)]

/-- Witness for the C4 amended theorem: acceptance of a fresh envelope,
the future error, and the expired error, each at concrete inputs. -/
theorem check_age_accepts_iff_witness :
    Envelope.check_age ⟨1, PayloadFormat.raw, ⟨none, none, "h", none, 90⟩, "p"⟩ 100 300 =
      RustResult.ok () ∧
    Envelope.check_age ⟨1, PayloadFormat.raw, ⟨none, none, "h", none, 200⟩, "p"⟩ 100 300 =
      RustResult.err "envelope timestamp is in the future" ∧
    Envelope.check_age ⟨1, PayloadFormat.raw, ⟨none, none, "h", none, 10⟩, "p"⟩ 100 50 =
      RustResult.err "envelope expired" :=
  ⟨(check_age_accepts_iff ⟨1, PayloadFormat.raw, ⟨none, none, "h", none, 90⟩, "p"⟩
      100 300).1.mpr (by norm_num),
   (check_age_accepts_iff ⟨1, PayloadFormat.raw, ⟨none, none, "h", none, 200⟩, "p"⟩
      100 300).2.1 (by norm_num) (by norm_num),
   (check_age_accepts_iff ⟨1, PayloadFormat.raw, ⟨none, none, "h", none, 10⟩, "p"⟩
      100 50).2.2 (by norm_num) (by norm_num) (by norm_num)⟩

/-- C1: for every sender, receiver, and payload under 16 MiB, sealing to
the receiver's recipient key and opening with the receiver's identity and
no expected sender succeeds and returns exactly the payload, and the
produced `sender_sign_pubkey` is the base64 encoding of the sender's
verifying key. -/
theorem signed_envelope_seal_open_roundtrip (s r : EnsealIdentity) (p : List Nat)
    (_hsize : p.length < 16 * 1024 * 1024) :
    ∃ se : SignedEnvelope,
      SignedEnvelope.seal p [r.age_recipient] s = RustResult.ok se ∧
      se.openWith r none = RustResult.ok p ∧
      se.sender_sign_pubkey = b64Encode (vkBytes s.signing_key) := by
  refine ⟨_, seal_nonempty_ok p [r.age_recipient] s (by simp), ?_, rfl⟩
  have h := openWith_seal p [r.age_recipient] s r (by simp)
  rw [seal_nonempty_ok p [r.age_recipient] s (by simp)] at h
  simpa [RustResult.bind, EnsealIdentity.age_recipient] using h

/-- Witness for C1 at concrete identities and a three-byte payload. -/
theorem signed_envelope_seal_open_roundtrip_witness :
    (([3, 1, 4] : List Nat).length < 16 * 1024 * 1024) ∧
    (∃ se : SignedEnvelope,
      SignedEnvelope.seal [3, 1, 4] [(⟨⟨2⟩, 6⟩ : EnsealIdentity).age_recipient]
          ⟨⟨1⟩, 5⟩ = RustResult.ok se ∧
      se.openWith ⟨⟨2⟩, 6⟩ none = RustResult.ok [3, 1, 4] ∧
      se.sender_sign_pubkey =
        b64Encode (vkBytes (⟨⟨1⟩, 5⟩ : EnsealIdentity).signing_key)) :=
  ⟨by norm_num,
   signed_envelope_seal_open_roundtrip ⟨⟨1⟩, 5⟩ ⟨⟨2⟩, 6⟩ [3, 1, 4] (by norm_num)⟩

/-- C2 (counterexample): in identity mode the recipient list handed to
`SignedEnvelope::seal` is built from the resolved trusted keys alone; with
one recipient distinct from the sender, the sender's own encryption key is
absent from it and the sender's own identity cannot decrypt the produced
wire unit. -/
theorem identity_mode_self_decrypt_cex :
    ((⟨⟨0⟩, 0⟩ : EnsealIdentity).age_recipient ∉
      share_age_recipients [⟨"bob", ⟨1⟩, []⟩]) ∧
    RustResult.bind (send_identity_filedrop [7] [⟨"bob", ⟨1⟩, []⟩] ⟨⟨0⟩, 0⟩)
      (fun se => se.openWith ⟨⟨0⟩, 0⟩ none) =
      RustResult.err "age decryption failed: no matching key" := by
  constructor
  · decide
  · have h := openWith_seal [7] (share_age_recipients [⟨"bob", ⟨1⟩, []⟩])
      ⟨⟨0⟩, 0⟩ ⟨⟨0⟩, 0⟩ (by decide)
    rw [if_neg (by decide)] at h
    exact h

/-- C2 (amended): every identity-mode transport (file drop, relay push,
wormhole mailbox) wraps the inner envelope in a `SignedEnvelope`, sealed to
exactly the resolved trusted keys' encryption keys; the sender's own key is
not added, so the sender's own identity can decrypt the wire unit exactly
when the sender's key is among the resolved recipients. -/
theorem identity_mode_wrapping_recipients (inner_bytes : List Nat)
    (trusted_keys : List TrustedKey) (sender : EnsealIdentity) :
    send_identity_filedrop inner_bytes trusted_keys sender =
      SignedEnvelope.seal inner_bytes (trusted_keys.map TrustedKey.age_recipient) sender ∧
    send_identity_relay_push inner_bytes trusted_keys sender =
      SignedEnvelope.seal inner_bytes (trusted_keys.map TrustedKey.age_recipient) sender ∧
    send_identity_wormhole inner_bytes trusted_keys sender =
      SignedEnvelope.seal inner_bytes (trusted_keys.map TrustedKey.age_recipient) sender ∧
    (trusted_keys ≠ [] →
      sender.age_recipient.pk ∉
        (trusted_keys.map TrustedKey.age_recipient).map AgeRecipient.pk →
      RustResult.bind (send_identity_filedrop inner_bytes trusted_keys sender)
        (fun se => se.openWith sender none) =
        RustResult.err "age decryption failed: no matching key") ∧
    (trusted_keys ≠ [] →
      sender.age_recipient.pk ∈
        (trusted_keys.map TrustedKey.age_recipient).map AgeRecipient.pk →
      RustResult.bind (send_identity_filedrop inner_bytes trusted_keys sender)
        (fun se => se.openWith sender none) = RustResult.ok inner_bytes) := by
  have hmap : share_age_recipients trusted_keys =
      trusted_keys.map TrustedKey.age_recipient := rfl
  refine ⟨rfl, rfl, rfl, ?_, ?_⟩
  · intro hne hmem
    have hrs : trusted_keys.map TrustedKey.age_recipient ≠ [] := by
      intro he
      exact hne (List.map_eq_nil_iff.mp he)
    have hmem2 : sender.age_identity.toPublic.pk ∉
        (trusted_keys.map TrustedKey.age_recipient).map AgeRecipient.pk := hmem
    have h := openWith_seal inner_bytes (trusted_keys.map TrustedKey.age_recipient)
      sender sender hrs
    rw [if_neg hmem2] at h
    exact h
  · intro hne hmem
    have hrs : trusted_keys.map TrustedKey.age_recipient ≠ [] := by
      intro he
      exact hne (List.map_eq_nil_iff.mp he)
    have hmem2 : sender.age_identity.toPublic.pk ∈
        (trusted_keys.map TrustedKey.age_recipient).map AgeRecipient.pk := hmem
    have h := openWith_seal inner_bytes (trusted_keys.map TrustedKey.age_recipient)
      sender sender hrs
    rw [if_pos hmem2] at h
    exact h

/-- Witness for the C2 amended theorem: a sender outside the recipient list
cannot decrypt, one inside can. -/
theorem identity_mode_wrapping_recipients_witness :
    (([⟨"bob", ⟨1⟩, []⟩] : List TrustedKey) ≠ [] ∧
      (⟨⟨0⟩, 0⟩ : EnsealIdentity).age_recipient.pk ∉
        (([⟨"bob", ⟨1⟩, []⟩] : List TrustedKey).map
          TrustedKey.age_recipient).map AgeRecipient.pk ∧
      RustResult.bind (send_identity_filedrop [7] [⟨"bob", ⟨1⟩, []⟩] ⟨⟨0⟩, 0⟩)
        (fun se => se.openWith ⟨⟨0⟩, 0⟩ none) =
        RustResult.err "age decryption failed: no matching key") ∧
    ((⟨⟨1⟩, 0⟩ : EnsealIdentity).age_recipient.pk ∈
      (([⟨"bob", ⟨1⟩, []⟩] : List TrustedKey).map
        TrustedKey.age_recipient).map AgeRecipient.pk ∧
      RustResult.bind (send_identity_filedrop [7] [⟨"bob", ⟨1⟩, []⟩] ⟨⟨1⟩, 0⟩)
        (fun se => se.openWith ⟨⟨1⟩, 0⟩ none) = RustResult.ok [7]) :=
  ⟨⟨by decide, by decide,
    (identity_mode_wrapping_recipients [7] [⟨"bob", ⟨1⟩, []⟩] ⟨⟨0⟩, 0⟩).2.2.2.1
      (by decide) (by decide)⟩,
   ⟨by decide,
    (identity_mode_wrapping_recipients [7] [⟨"bob", ⟨1⟩, []⟩] ⟨⟨1⟩, 0⟩).2.2.2.2
      (by decide) (by decide)⟩⟩

/-- C10: a wire record that omits `created_at` entirely still passes
`from_bytes` when the size, version, and hash checks pass, deserialising
with `created_at = 0`, and every such envelope is then rejected by
`check_age` for every bound at every clock reading. -/
theorem from_bytes_missing_created_at (d : WireBytes) (w : WireEnvelope)
    (hp : d.parsed = some w) (hmiss : w.metadata.created_at = none)
    (hsize : d.size ≤ 16 * 1024 * 1024) (hver : w.version = 1)
    (hhash : w.metadata.sha256 = hexSha256 w.payload) :
    Envelope.from_bytes d = RustResult.ok w.toEnvelope ∧
    w.toEnvelope.metadata.created_at = 0 ∧
    ∀ n now, Envelope.check_age w.toEnvelope now n =
      RustResult.err "envelope has no timestamp" := by
  have hzero : w.toEnvelope.metadata.created_at = 0 := by
    rw [WireEnvelope.toEnvelope]
    simp [hmiss]
  refine ⟨?_, hzero, ?_⟩
  · rw [Envelope.from_bytes, if_neg (Nat.not_lt.mpr hsize), hp]
    simp only [WireEnvelope.toEnvelope, hver, hhash]
    simp
  · intro n now
    rw [Envelope.check_age, if_pos hzero]

/-- Witness for C10 at a concrete record with no `created_at` field. -/
theorem from_bytes_missing_created_at_witness :
    Envelope.from_bytes ⟨5, some ⟨1, PayloadFormat.raw,
        ⟨none, none, hexSha256 "A", none, none⟩, "A"⟩⟩ =
      RustResult.ok (WireEnvelope.toEnvelope ⟨1, PayloadFormat.raw,
        ⟨none, none, hexSha256 "A", none, none⟩, "A"⟩) ∧
    Envelope.check_age (WireEnvelope.toEnvelope ⟨1, PayloadFormat.raw,
        ⟨none, none, hexSha256 "A", none, none⟩, "A"⟩) 1760000000 300 =
      RustResult.err "envelope has no timestamp" := by
  have h := from_bytes_missing_created_at ⟨5, some ⟨1, PayloadFormat.raw,
    ⟨none, none, hexSha256 "A", none, none⟩, "A"⟩⟩
    ⟨1, PayloadFormat.raw, ⟨none, none, hexSha256 "A", none, none⟩, "A"⟩
    rfl rfl (by norm_num) rfl rfl
  exact ⟨h.1, h.2.2 300 1760000000⟩

/-- C3: `from_bytes` fails on every input longer than 16 MiB; fails on
every well-formed record whose version is not 1; fails with the
hash-mismatch error on every record (within the size bound and at version
1) whose stored hash differs from the lowercase hex SHA-256 of its payload,
in particular after replacing any single character of a correct stored
hash; and succeeds on any record meeting all three conditions. -/
theorem envelope_from_bytes_checks :
    (∀ d : WireBytes, 16 * 1024 * 1024 < d.size →
      Envelope.from_bytes d =
        RustResult.err "envelope data exceeds maximum size (16 MiB)") ∧
    (∀ (d : WireBytes) (w : WireEnvelope), d.parsed = some w → w.version ≠ 1 →
      ∃ m, Envelope.from_bytes d = RustResult.err m) ∧
    (∀ (d : WireBytes) (w : WireEnvelope), d.parsed = some w →
      d.size ≤ 16 * 1024 * 1024 → w.version = 1 →
      w.metadata.sha256 ≠ hexSha256 w.payload →
      Envelope.from_bytes d =
        RustResult.err "integrity check failed: payload hash mismatch") ∧
    (∀ (d : WireBytes) (w : WireEnvelope) (i : Nat) (c c0 : Char),
      d.parsed = some w → d.size ≤ 16 * 1024 * 1024 → w.version = 1 →
      w.metadata.sha256 = hexSha256 w.payload →
      w.metadata.sha256.data[i]? = some c0 → c ≠ c0 →
      Envelope.from_bytes ⟨d.size, some (alterHashChar w i c)⟩ =
        RustResult.err "integrity check failed: payload hash mismatch") ∧
    (∀ (d : WireBytes) (w : WireEnvelope), d.parsed = some w →
      d.size ≤ 16 * 1024 * 1024 → w.version = 1 →
      w.metadata.sha256 = hexSha256 w.payload →
      Envelope.from_bytes d = RustResult.ok w.toEnvelope) := by
  refine ⟨?_, ?_, ?_, ?_, ?_⟩
  · intro d h
    rw [Envelope.from_bytes, if_pos h]
  · intro d w hp hver
    by_cases hs : 16 * 1024 * 1024 < d.size
    · exact ⟨_, by rw [Envelope.from_bytes, if_pos hs]⟩
    · refine ⟨"unsupported envelope version", ?_⟩
      rw [from_bytes_parsed d w hp (Nat.not_lt.mp hs), if_pos hver]
  · intro d w hp hs hver hhash
    rw [from_bytes_parsed d w hp hs, if_neg (by simp [hver]), if_pos hhash]
  · intro d w i c c0 hp hs hver hhash hget hne
    have hkey : (alterHashChar w i c).metadata.sha256 ≠
        hexSha256 (alterHashChar w i c).payload := by
      intro he
      rw [alterHashChar] at he
      simp only at he
      rw [← hhash] at he
      have hdata : w.metadata.sha256.data.set i c = w.metadata.sha256.data :=
        congrArg String.data he
      exact set_ne_of_getElem? _ i c c0 hget hne hdata
    have hver2 : (alterHashChar w i c).version = 1 := hver
    rw [from_bytes_parsed ⟨d.size, some (alterHashChar w i c)⟩ (alterHashChar w i c)
      rfl hs, if_neg (by simp [hver2]), if_pos hkey]
  · intro d w hp hs hver hhash
    rw [from_bytes_parsed d w hp hs, if_neg (by simp [hver]), if_neg (by simp [hhash])]

/-- Witness for C3: each branch at a concrete input, with the altered-hash
branch replacing the first character of a correct hash. -/
theorem envelope_from_bytes_checks_witness :
    Envelope.from_bytes ⟨16 * 1024 * 1024 + 1, none⟩ =
      RustResult.err "envelope data exceeds maximum size (16 MiB)" ∧
    (∃ m, Envelope.from_bytes ⟨5, some ⟨2, PayloadFormat.raw,
      ⟨none, none, "h", none, none⟩, "p"⟩⟩ = RustResult.err m) ∧
    Envelope.from_bytes ⟨5, some ⟨1, PayloadFormat.raw,
      ⟨none, none, "zz", none, none⟩, "p"⟩⟩ =
      RustResult.err "integrity check failed: payload hash mismatch" ∧
    Envelope.from_bytes ⟨5, some (alterHashChar ⟨1, PayloadFormat.raw,
      ⟨none, none, hexSha256 "p", none, none⟩, "p"⟩ 0 '~')⟩ =
      RustResult.err "integrity check failed: payload hash mismatch" ∧
    Envelope.from_bytes ⟨5, some ⟨1, PayloadFormat.raw,
      ⟨none, none, hexSha256 "p", none, none⟩, "p"⟩⟩ =
      RustResult.ok (WireEnvelope.toEnvelope ⟨1, PayloadFormat.raw,
        ⟨none, none, hexSha256 "p", none, none⟩, "p"⟩) :=
  ⟨envelope_from_bytes_checks.1 ⟨16 * 1024 * 1024 + 1, none⟩ (by norm_num),
   envelope_from_bytes_checks.2.1 ⟨5, some ⟨2, PayloadFormat.raw,
     ⟨none, none, "h", none, none⟩, "p"⟩⟩ _ rfl (by norm_num),
   envelope_from_bytes_checks.2.2.1 ⟨5, some ⟨1, PayloadFormat.raw,
     ⟨none, none, "zz", none, none⟩, "p"⟩⟩ _ rfl (by norm_num) rfl (by decide),
   envelope_from_bytes_checks.2.2.2.1 ⟨5, some ⟨1, PayloadFormat.raw,
     ⟨none, none, hexSha256 "p", none, none⟩, "p"⟩⟩ _ 0 '~' '1' rfl (by norm_num)
     rfl rfl (by decide) (by decide),
   envelope_from_bytes_checks.2.2.2.2 ⟨5, some ⟨1, PayloadFormat.raw,
     ⟨none, none, hexSha256 "p", none, none⟩, "p"⟩⟩ _ rfl (by norm_num) rfl rfl⟩

/-- C6 (counterexample): the name made of `a` followed by U+00A0, a
Unicode whitespace character, passes `validate_identity_name`, so the
validator does not reject every name containing a whitespace character. -/
theorem validate_name_unicode_whitespace_cex :
    isUnicodeWhitespace (Char.ofNat 160) = true ∧
    (Char.ofNat 160) ∈ (⟨['a', Char.ofNat 160]⟩ : String).data ∧
    validate_identity_name ⟨['a', Char.ofNat 160]⟩ = RustResult.ok () :=
  ⟨by decide, by decide, by decide⟩

/-- C6 (amended): `validate_identity_name` succeeds exactly when the name
is non-empty, has no slash or backslash, no two consecutive dots, no NUL,
does not start with a dot, and contains no ASCII control character and no
space: whitespace outside ASCII control and the space character is not
rejected. -/
theorem validate_identity_name_iff (s : String) :
    validate_identity_name s = RustResult.ok () ↔
      (s.data ≠ [] ∧ '/' ∉ s.data ∧ '\\' ∉ s.data ∧
        ¬ ("..".data <:+: s.data) ∧ Char.ofNat 0 ∉ s.data ∧
        s.data.head? ≠ some '.' ∧
        ∀ c ∈ s.data, isAsciiControl c = false ∧ c ≠ ' ') := by
  rw [validate_identity_name]
  split_ifs with h1 h2 h3 h4 h5 h6
  · exact iff_of_false (by simp) fun hc => hc.1 h1
  · refine iff_of_false (by simp) fun hc => ?_
    rcases Bool.or_eq_true_iff.mp h2 with h | h
    · exact hc.2.1 (List.elem_iff.mp h)
    · exact hc.2.2.1 (List.elem_iff.mp h)
  · exact iff_of_false (by simp) fun hc => hc.2.2.2.1 h3
  · exact iff_of_false (by simp) fun hc => hc.2.2.2.2.1 (List.elem_iff.mp h4)
  · exact iff_of_false (by simp) fun hc => hc.2.2.2.2.2.1 h5
  · refine iff_of_false (by simp) fun hc => ?_
    obtain ⟨c, hcmem, hcp⟩ := List.any_eq_true.mp h6
    rcases Bool.or_eq_true_iff.mp hcp with h | h
    · have hfalse := (hc.2.2.2.2.2.2 c hcmem).1
      rw [hfalse] at h
      cases h
    · exact (hc.2.2.2.2.2.2 c hcmem).2 (by simpa using h)
  · refine iff_of_true rfl ⟨h1, ?_, ?_, h3, ?_, h5, ?_⟩
    · intro hmem
      exact h2 (Bool.or_eq_true_iff.mpr (Or.inl (List.elem_iff.mpr hmem)))
    · intro hmem
      exact h2 (Bool.or_eq_true_iff.mpr (Or.inr (List.elem_iff.mpr hmem)))
    · intro hmem
      exact h4 (List.elem_iff.mpr hmem)
    · intro c hcmem
      constructor
      · cases hctl : isAsciiControl c with
        | false => rfl
        | true =>
          exact absurd (List.any_eq_true.mpr ⟨c, hcmem, by simp [hctl]⟩) h6
      · intro he
        exact h6 (List.any_eq_true.mpr ⟨c, hcmem, by simp [he]⟩)

/-- C7: per-variable encryption to a single identity followed by
per-variable decryption with that identity succeeds and restores the file
entry-for-entry, the key-value list of the decrypted file equals the
original, keys stay visible after encryption, and comment and blank
entries pass through unchanged in both directions. -/
theorem per_var_roundtrip (E : EnvFile) (i : AgeIdentity) :
    ∃ Eenc Edec : EnvFile,
      encrypt_per_var E [i.toPublic] = RustResult.ok Eenc ∧
      decrypt_per_var Eenc i = RustResult.ok Edec ∧
      Edec = E ∧
      Edec.vars = E.vars ∧
      Eenc.vars.map Prod.fst = E.vars.map Prod.fst ∧
      Eenc.entries.length = E.entries.length ∧
      (∀ (j : Nat) (t : String), E.entries[j]? = some (Entry.comment t) →
        Eenc.entries[j]? = some (Entry.comment t)) ∧
      (∀ j : Nat, E.entries[j]? = some Entry.blank →
        Eenc.entries[j]? = some Entry.blank) := by
  refine ⟨⟨E.entries.map (encEntryFun [i.toPublic])⟩, E, ?_, ?_, rfl, rfl, ?_, ?_, ?_, ?_⟩
  · rw [encrypt_per_var, mapMEntries_ok_of_map _ (encEntryFun [i.toPublic]) E.entries
      fun e _ => encryptEntry_eq [i.toPublic] e (by simp)]
    rfl
  · rw [decrypt_per_var]
    simp only []
    rw [mapMEntries_map_ok (decryptEntry i) (encEntryFun [i.toPublic]) E.entries
      fun e _ => decryptEntry_encEntryFun i e]
    rfl
  · exact vars_map_encEntryFun_fst [i.toPublic] E.entries
  · exact List.length_map E.entries _
  · intro j t hj
    rw [List.getElem?_map, hj]
    rfl
  · intro j hj
    rw [List.getElem?_map, hj]
    rfl

/-- C9: with the per-minute limit set to N and an empty log for an IP,
N upgrade attempts from that IP whose timestamps all lie inside a common
60-second window are each admitted, and the next attempt inside that
window is rejected with HTTP 429. -/
theorem rate_limit_429 (n ip : Nat) (ts : List Nat) (tNext : Nat)
    (st : RelayState)
    (hlimit : st.rate_limit_per_min = n)
    (hempty : st.connection_log ip = [])
    (hlen : ts.length = n)
    (hpair : List.Pairwise (fun a b => b - 60 < a) (ts ++ [tNext])) :
    (processUpgrades st ip (ts ++ [tNext])).1 =
      List.replicate n UpgradeResponse.upgraded ++
        [UpgradeResponse.tooManyRequests] := by
  have hsplit := List.pairwise_append.mp hpair
  have hA := processUpgrades_all_admitted ip ts st [] hempty
    (by simp [hlimit, hlen]) (by intro x hx; cases hx) hsplit.1
  have hwin : ∀ a ∈ ts, tNext - 60 < a := by
    intro a ha
    exact hsplit.2.2 a ha tNext (List.mem_singleton.mpr rfl)
  rw [processUpgrades_append, hA.1, hlen]
  have hfilter : (((processUpgrades st ip ts).2.connection_log ip).filter
      fun t => tNext - 60 < t) = ts := by
    rw [hA.2.1]
    simp only [List.nil_append]
    rw [List.filter_eq_self]
    intro a ha
    exact decide_eq_true (hwin a ha)
  have hrej := ws_handler_reject (processUpgrades st ip ts).2 ip tNext (by
    rw [hfilter, hA.2.2, hlimit, hlen])
  have hone : (processUpgrades (processUpgrades st ip ts).2 ip [tNext]).1 =
      [(ws_handler (processUpgrades st ip ts).2 ip tNext).1] := rfl
  rw [hone, hrej]

/-- Witness for C9: limit 2, two connections at 100 and 110, the third at
120 rejected. -/
theorem rate_limit_429_witness :
    (processUpgrades ⟨fun _ => [], 2⟩ 9 [100, 110, 120]).1 =
      List.replicate 2 UpgradeResponse.upgraded ++
        [UpgradeResponse.tooManyRequests] :=
  rate_limit_429 2 9 [100, 110] 120 ⟨fun _ => [], 2⟩ rfl rfl rfl (by decide)

end Enseal
